import Mathlib

/-!
Verification development for the in-memory tabular data toolkit
(dataset & schema inference, transform library, statistics engine,
pipeline runner, notebook cell execution).

Shallow embedding conventions:
* JS numbers are modelled as exact rationals (`ℚ`).  The source's `NaN`
  guard in `getNumericColumn` (`typeof v === 'number' && !isNaN(v)`) is
  vacuous in this model since `ℚ` has no NaN.
* A JS row (`Record<string, unknown>`) is an insertion-ordered
  association list with unique keys.  A key that is absent and a key
  that is present with value `undefined` are conflated: `rowGet` returns
  `none` for both (the source only ever distinguishes them through
  `Object.keys`, which none of the verified claims exercise).
* The identity of the `rows` array object of a `Dataset` is modelled by
  an explicit allocation tag `rowsRef : Nat`; a transform that builds a
  new array receives the tag `fresh` of the newly allocated array and a
  transform that returns its input unchanged keeps the input's tag.
* `metadata.createdAt` (a wall-clock timestamp) is omitted from the
  dataset model; no claim concerns it.
-/

/-- JS value stored in a dataset cell (`null`, string, number, boolean).
`undefined` is represented by absence (`Option.none` at the access site). -/
inductive Value where
  | null
  | str (s : String)
  | num (q : ℚ)
  | bool (b : Bool)
deriving DecidableEq

/-- A row: insertion-ordered association list with unique keys,
modelling a JS object `Record<string, unknown>`. -/
abbrev Row := List (String × Value)

/-- Property access `r[k]`: `none` models JS `undefined` (absent key). -/
def rowGet (r : Row) (k : String) : Option Value :=
  match r with
  | [] => none
  | (k', v) :: rest => if k' = k then some v else rowGet rest k

/-- Property assignment `{...r, [k]: v}` / `r[k] = v`: an existing key
keeps its position and gets the new value, a new key is appended. -/
def rowSet (r : Row) (k : String) (v : Value) : Row :=
  match r with
  | [] => [(k, v)]
  | (k', v') :: rest => if k' = k then (k', v) :: rest else (k', v') :: rowSet rest k v

/-- `Object.keys(r)` in insertion order. -/
def rowKeys (r : Row) : List String := r.map Prod.fst

/-- Object spread `{...a, ...b}`: fields of `b` overwrite fields of `a`. -/
def mergeRows (a b : Row) : Row :=
  b.foldl (fun acc kv => rowSet acc kv.1 kv.2) a

/-- The check `v === null || v === undefined` on a property value. -/
def nullish (v : Option Value) : Bool :=
  match v with
  | none => true
  | some .null => true
  | some _ => false

/-- Insert `x` at the end unless already present (JS `Set.add`). -/
def insertUniq {α : Type} [DecidableEq α] (l : List α) (x : α) : List α :=
  if x ∈ l then l else l ++ [x]

/-- Distinct elements of `l` in first-seen order (iteration order of a
JS `Set`/`Map` built by inserting the elements of `l` in order). -/
def firstSeen {α : Type} [DecidableEq α] (l : List α) : List α :=
  l.foldl insertUniq []

/-- Column type enum of the schema (`string|number|boolean|date|object|array|null`).
`date`, `object` and `array` values do not occur in this model's `Value`
but the enum keeps all constructors of the source. -/
inductive ColumnType where
  | string
  | number
  | boolean
  | date
  | object
  | array
  | null
deriving DecidableEq

/-- `inferColumnType(value)` for a present, non-undefined value. -/
def inferColumnType (v : Value) : ColumnType :=
  match v with
  | .null => .null
  | .str _ => .string
  | .num _ => .number
  | .bool _ => .boolean

/-- Column schema record `{name, type, nullable}`. -/
structure ColumnSchema where
  name : String
  type : ColumnType
  nullable : Bool
deriving DecidableEq

/-- Dataset metadata `{name, description?, rows, columns}` (the
wall-clock `createdAt` field is omitted from the model). -/
structure DatasetMetadata where
  name : String
  description : Option String := none
  rows : Nat
  columns : List ColumnSchema
deriving DecidableEq

/-- Union of the keys of all rows, in first-seen order (the source's
`Set` filled by iterating rows and then `Object.keys`). -/
def columnNames (rows : List Row) : List String :=
  firstSeen (rows.map rowKeys).flatten

/-- Type of the first non-null, non-undefined value of column `c`
(`'null'` when every row is nullish at `c`). -/
def firstType (rows : List Row) (c : String) : ColumnType :=
  match rows with
  | [] => .null
  | r :: rest =>
    match rowGet r c with
    | some v => if v = .null then firstType rest c else inferColumnType v
    | none => firstType rest c

/-- `inferSchema(rows, name)` from the source: empty input yields zero
columns; otherwise one `ColumnSchema` per first-seen column name, with
`nullable` true iff some row is null/undefined at that column. -/
def inferSchema (rows : List Row) (name : String) : DatasetMetadata :=
  if rows = [] then { name := name, rows := 0, columns := [] }
  else
    { name := name
      rows := rows.length
      columns := (columnNames rows).map (fun c =>
        { name := c
          type := firstType rows c
          nullable := rows.any (fun r => nullish (rowGet r c)) }) }

/-- Dataset value: metadata, rows, and the allocation tag of the rows
array object (`rowsRef` models JS reference identity of `rows`). -/
structure Dataset where
  metadata : DatasetMetadata
  rows : List Row
  rowsRef : Nat
deriving DecidableEq

/-- `createDataset(rows, name)`: metadata is re-inferred from the rows;
`ref` is the allocation tag of the array passed in.  The optional
`description` argument is omitted (transforms never pass it). -/
def createDataset (rows : List Row) (name : String) (ref : Nat) : Dataset :=
  { metadata := inferSchema rows name, rows := rows, rowsRef := ref }

/-- `getColumn(dataset, column)`. -/
def getColumn (d : Dataset) (col : String) : List (Option Value) :=
  d.rows.map (fun r => rowGet r col)

/-- Numeric payload of a property value, when it is a number. -/
def valNum (v : Option Value) : Option ℚ :=
  match v with
  | some (.num q) => some q
  | _ => none

/-- `getNumericColumn(dataset, column)`: the column's values that are
numbers (`typeof v === 'number' && !isNaN(v)`; the NaN guard is vacuous
over `ℚ`). -/
def getNumericColumn (d : Dataset) (col : String) : List ℚ :=
  (d.rows.map (fun r => rowGet r col)).filterMap valNum

/-- `filterRows(dataset, predicate)`. -/
def filterRows (d : Dataset) (p : Row → Bool) (fresh : Nat) : Dataset :=
  createDataset (d.rows.filter p) d.metadata.name fresh

/-- Approximation of the JS `<` operator on two non-nullish values.
Same-type comparisons are exact (numbers, strings, booleans); the
coercing mixed-type cases involving strings are approximated by `false`.
No verified claim depends on the order of non-null sort keys. -/
def jsLtVal (a b : Value) : Bool :=
  match a, b with
  | .num x, .num y => decide (x < y)
  | .str x, .str y => decide (x < y)
  | .bool x, .bool y => !x && y
  | .num x, .bool y => decide (x < (if y then 1 else 0))
  | .bool x, .num y => decide ((if x then (1 : ℚ) else 0) < y)
  | _, _ => false

/-- `jsLtVal` lifted to property values (only reached on non-nullish
arguments in `cmpRows`). -/
def jsLtOpt (a b : Option Value) : Bool :=
  match a, b with
  | some x, some y => jsLtVal x y
  | _, _ => false

/-- The comparator of `sortBy`: `0` on strictly-equal values, nullish
values sort after everything regardless of direction, otherwise the
`<`-based comparison with the sign flipped for descending order. -/
def cmpRows (col : String) (asc : Bool) (a b : Row) : Int :=
  let va := rowGet a col
  let vb := rowGet b col
  if va = vb then 0
  else if nullish va then 1
  else if nullish vb then -1
  else
    let c : Int := if jsLtOpt va vb then -1 else 1
    if asc then c else -c

/-- The host sort is modelled as a stable insertion sort driven by the
comparator (`cmpRows ... ≤ 0` = "a is ordered no later than b"). -/
def sortBy (d : Dataset) (col : String) (asc : Bool) (fresh : Nat) : Dataset :=
  createDataset
    (d.rows.insertionSort (fun a b => cmpRows col asc a b ≤ 0))
    d.metadata.name fresh

/-- `addColumn(dataset, name, compute)`. -/
def addColumn (d : Dataset) (name : String) (compute : Row → Value) (fresh : Nat) : Dataset :=
  createDataset (d.rows.map (fun r => rowSet r name (compute r))) d.metadata.name fresh

/-- `renameColumn(dataset, old, new)`: each row is rebuilt key by key
(last-key-wins when the new name collides with an existing key). -/
def renameColumn (d : Dataset) (o n : String) (fresh : Nat) : Dataset :=
  createDataset
    (d.rows.map (fun r =>
      r.foldl (fun acc kv => rowSet acc (if kv.1 = o then n else kv.1) kv.2) []))
    d.metadata.name fresh

/-- `dropNulls(dataset, columns?)`: default column set is all current
schema columns; a row is kept only when every listed column is
non-nullish. -/
def dropNulls (d : Dataset) (cols : Option (List String)) (fresh : Nat) : Dataset :=
  let cs := cols.getD (d.metadata.columns.map (fun c => c.name))
  createDataset
    (d.rows.filter (fun r => cs.all (fun c => !nullish (rowGet r c))))
    d.metadata.name fresh

/-- Insertion-order grouping of rows by the raw value of `col`
(extensional model of the JS `Map` built by pushing each row onto the
group of its key): group keys in first-seen order, each group holding
its matching rows in row order. -/
def groupPairs (rows : List Row) (col : String) : List (Option Value × List Row) :=
  (firstSeen (rows.map (fun r => rowGet r col))).map
    (fun k => (k, rows.filter (fun r => decide (rowGet r col = k))))

/-- Aggregation function enum `'sum' | 'avg' | 'count' | 'min' | 'max'`. -/
inductive AggFn where
  | sum
  | avg
  | count
  | min
  | max
deriving DecidableEq

/-- Aggregation spec `{column, fn}`. -/
structure AggSpec where
  column : String
  fn : AggFn
deriving DecidableEq

/-- Numeric values of column `col` within a group of rows
(`rows.map(r => r[col]).filter(v => typeof v === 'number')`). -/
def numsOf (g : List Row) (col : String) : List ℚ :=
  (g.map (fun r => rowGet r col)).filterMap valNum

/-- `Math.min(...values)` for a non-empty `values` (the empty case is
unreachable behind the source's `values.length > 0` guards). -/
def jsMin (l : List ℚ) : ℚ :=
  match l with
  | [] => 0
  | x :: xs => xs.foldl min x

/-- `Math.max(...values)` for a non-empty `values`. -/
def jsMax (l : List ℚ) : ℚ :=
  match l with
  | [] => 0
  | x :: xs => xs.foldl max x

/-- The `switch (spec.fn)` of `aggregate`: value computed for one alias
over the numeric values of its source column in a group of
`groupSize` rows. -/
def aggValue (fn : AggFn) (values : List ℚ) (groupSize : Nat) : Value :=
  match fn with
  | .sum => .num (values.foldl (· + ·) 0)
  | .avg => .num (if values.length > 0 then values.foldl (· + ·) 0 / values.length else 0)
  | .count => .num groupSize
  | .min => if values = [] then .null else .num (jsMin values)
  | .max => if values = [] then .null else .num (jsMax values)

/-- One output row of `aggregate`: `{[groupColumn]: key}` extended by
one field per alias (`Object.entries(aggregations)` order). -/
def aggRow (gcol : String) (aggs : List (String × AggSpec)) (k : Option Value)
    (g : List Row) : Row :=
  let base : Row := match k with | some v => [(gcol, v)] | none => []
  aggs.foldl (fun acc a => rowSet acc a.1 (aggValue a.2.fn (numsOf g a.2.column) g.length)) base

/-- `aggregate(dataset, groupColumn, aggregations)`. -/
def aggregate (d : Dataset) (gcol : String) (aggs : List (String × AggSpec))
    (fresh : Nat) : Dataset :=
  createDataset
    ((groupPairs d.rows gcol).map (fun p => aggRow gcol aggs p.1 p.2))
    d.metadata.name fresh

/-- `innerJoin(left, right, leftKey, rightKey)`: for each left row, one
merged row (right fields overwrite) per right row whose `rightKey`
strictly equals the left row's `leftKey`; unmatched left rows drop. -/
def innerJoin (l r : Dataset) (lk rk : String) (fresh : Nat) : Dataset :=
  createDataset
    ((l.rows.map (fun lr =>
      (r.rows.filter (fun rr => decide (rowGet rr rk = rowGet lr lk))).map
        (fun rr => mergeRows lr rr))).flatten)
    (l.metadata.name ++ "_joined") fresh

/-- JS `String(value)` for a present value.  The number case uses the
rational's canonical rendering, an approximation of JS number
formatting; no verified claim depends on the rendered text. -/
def jsString (v : Value) : String :=
  match v with
  | .str s => s
  | .num q => toString q
  | .bool b => if b then "true" else "false"
  | .null => "null"

/-- JS `String(value)` including the `undefined` case. -/
def jsStringOpt (v : Option Value) : String :=
  match v with
  | some v => jsString v
  | none => "undefined"

/-- Assignment of a possibly-undefined value: assigning `undefined`
makes the later read `undefined`, which this model conflates with
erasing the key. -/
def rowSetOpt (r : Row) (k : String) (v : Option Value) : Row :=
  match v with
  | some v => rowSet r k v
  | none => r.filter (fun kv => decide (kv.1 ≠ k))

/-- `pivot(dataset, indexColumn, pivotColumn, valueColumn)`: one output
row per first-seen `indexColumn` value; within an index group, later
rows overwrite earlier ones for the same stringified pivot key. -/
def pivot (d : Dataset) (idx piv val : String) (fresh : Nat) : Dataset :=
  let keys := firstSeen (d.rows.map (fun r => rowGet r idx))
  createDataset
    (keys.map (fun k =>
      let base : Row := match k with | some v => [(idx, v)] | none => []
      (d.rows.filter (fun r => decide (rowGet r idx = k))).foldl
        (fun acc r => rowSetOpt acc (jsStringOpt (rowGet r piv)) (rowGet r val)) base))
    d.metadata.name fresh

/-- `normalize(dataset, column)`: min-max scaling of the numeric cells
of `column` to [0,1].  When the column holds zero numeric values the
source returns the input dataset itself (same rows array); when the
range is zero every numeric cell becomes `0`.  (Named `normalizeCol`
because `normalize` is taken by Mathlib.) -/
def normalizeCol (d : Dataset) (col : String) (fresh : Nat) : Dataset :=
  let values := getNumericColumn d col
  if values = [] then d
  else
    let mn := jsMin values
    let mx := jsMax values
    if mx - mn = 0 then
      createDataset
        (d.rows.map (fun r =>
          match rowGet r col with
          | some (.num _) => rowSet r col (.num 0)
          | _ => r))
        d.metadata.name fresh
    else
      createDataset
        (d.rows.map (fun r =>
          match rowGet r col with
          | some (.num q) => rowSet r col (.num ((q - mn) / (mx - mn)))
          | _ => r))
        d.metadata.name fresh

/-- `fillNulls(dataset, column, value)`: replaces null/undefined (not
other falsy values) in `column` by `value`. -/
def fillNulls (d : Dataset) (col : String) (v : Value) (fresh : Nat) : Dataset :=
  createDataset
    (d.rows.map (fun r =>
      if nullish (rowGet r col) then rowSet r col v else r))
    d.metadata.name fresh

/-- `concat(...datasets)`: row-list concatenation; the name comes from
the first dataset, `"concatenated"` when the list is empty. -/
def concat (ds : List Dataset) (fresh : Nat) : Dataset :=
  createDataset
    ((ds.map (fun d => d.rows)).flatten)
    ((ds.head?.map (fun d => d.metadata.name)).getD "concatenated") fresh

/-- One Transform Library call `f(d, ...)` with its extra arguments,
used to quantify over the operations of the immutability claim. -/
inductive TransformOp where
  | filterRowsOp (p : Row → Bool)
  | sortByOp (col : String) (asc : Bool)
  | addColumnOp (name : String) (compute : Row → Value)
  | renameColumnOp (o n : String)
  | dropNullsOp (cols : Option (List String))
  | aggregateOp (gcol : String) (aggs : List (String × AggSpec))
  | innerJoinOp (right : Dataset) (lk rk : String)
  | pivotOp (idx piv val : String)
  | normalizeOp (col : String)
  | fillNullsOp (col : String) (v : Value)
  | concatOp (others : List Dataset)

/-- Apply a Transform Library call to dataset `d`, `fresh` being the
allocation tag of the newly built rows array. -/
def applyOp (op : TransformOp) (d : Dataset) (fresh : Nat) : Dataset :=
  match op with
  | .filterRowsOp p => filterRows d p fresh
  | .sortByOp col asc => sortBy d col asc fresh
  | .addColumnOp name compute => addColumn d name compute fresh
  | .renameColumnOp o n => renameColumn d o n fresh
  | .dropNullsOp cols => dropNulls d cols fresh
  | .aggregateOp gcol aggs => aggregate d gcol aggs fresh
  | .innerJoinOp right lk rk => innerJoin d right lk rk fresh
  | .pivotOp idx piv val => pivot d idx piv val fresh
  | .normalizeOp col => normalizeCol d col fresh
  | .fillNullsOp col v => fillNulls d col v fresh
  | .concatOp others => concat (d :: others) fresh

/-- `sum(values)` of the statistics engine
(`values.reduce((a, b) => a + b, 0)`). -/
def sumQ (values : List ℚ) : ℚ := values.foldl (· + ·) 0

/-- `mean(values)`; `mean([]) = 0`. -/
def meanQ (values : List ℚ) : ℚ :=
  if values = [] then 0 else sumQ values / values.length

/-- `median(values)` by the sorted-midpoint rule; `median([]) = 0`. -/
def medianQ (values : List ℚ) : ℚ :=
  if values = [] then 0
  else
    let sorted := values.insertionSort (fun a b => a ≤ b)
    let mid := sorted.length / 2
    if sorted.length % 2 = 0 then (sorted.getD (mid - 1) 0 + sorted.getD mid 0) / 2
    else sorted.getD mid 0

/-- Sample variance (divides by `n - 1`), `0` for fewer than two
values. -/
def varianceQ (values : List ℚ) : ℚ :=
  if values.length < 2 then 0
  else values.foldl (fun s v => s + (v - meanQ values) ^ 2) 0 / (values.length - 1 : ℕ)

/-- `quantile(values, q)` by linear interpolation on the sorted array;
`quantile([], q) = 0`. -/
def quantileQ (values : List ℚ) (q : ℚ) : ℚ :=
  if values = [] then 0
  else
    let sorted := values.insertionSort (fun a b => a ≤ b)
    let pos : ℚ := ((sorted.length - 1 : ℕ) : ℚ) * q
    let base : Nat := pos.floor.toNat
    let rest : ℚ := pos - (pos.floor : ℚ)
    match sorted.get? (base + 1) with
    | some nxt => sorted.getD base 0 + rest * (nxt - sorted.getD base 0)
    | none => sorted.getD base 0

/-- Descriptive statistics record of `describeColumn`.  The source also
computes `stddev = sqrt(variance)`; the square root has no exact `ℚ`
counterpart and no claim concerns it, so the field is omitted. -/
structure DescriptiveStats where
  column : String
  count : Nat
  mean : ℚ
  median : ℚ
  min : ℚ
  max : ℚ
  variance : ℚ
  q25 : ℚ
  q75 : ℚ
  nullCount : Nat
deriving DecidableEq

/-- `describeColumn(dataset, column)`: statistics over the numeric
values of the column; `min`/`max` fall back to `0` over zero numeric
values; `nullCount` counts strictly null/undefined raw values. -/
def describeColumn (d : Dataset) (col : String) : DescriptiveStats :=
  let values := getNumericColumn d col
  let allValues := d.rows.map (fun r => rowGet r col)
  { column := col
    count := values.length
    mean := meanQ values
    median := medianQ values
    min := if values.length > 0 then jsMin values else 0
    max := if values.length > 0 then jsMax values else 0
    variance := varianceQ values
    q25 := quantileQ values (1 / 4)
    q75 := quantileQ values (3 / 4)
    nullCount := (allValues.filter (fun v => nullish v)).length }

/-- Cell type enum `'code' | 'markdown' | 'raw'`. -/
inductive CellType where
  | code
  | markdown
  | raw
deriving DecidableEq

/-- Cell status enum `'idle' | 'running' | 'completed' | 'error' | 'skipped'`. -/
inductive CellStatus where
  | idle
  | running
  | completed
  | error
  | skipped
deriving DecidableEq

/-- Cell output type enum; the notebook code produces `'text'` and
`'error'` outputs. -/
inductive OutputType where
  | text
  | error
  | json
  | image
deriving DecidableEq

/-- `createOutput(type, data, mimeType?)` record `{type, data, mimeType}`. -/
structure CellOutput where
  type : OutputType
  data : Value
  mimeType : Option String := none
deriving DecidableEq

/-- Notebook cell `{id, type, source, outputs, status, executionCount}`
(the free-form `metadata`/`tags` fields are omitted; no claim concerns
them and every runner operation passes them through unchanged). -/
structure Cell where
  id : String
  type : CellType
  source : String
  outputs : List CellOutput
  status : CellStatus
  executionCount : Option Nat := none
deriving DecidableEq

/-- `markRunning(cell, executionCount)`: status `running`, outputs
cleared, execution counter set. -/
def markRunning (cell : Cell) (executionCount : Nat) : Cell :=
  { cell with status := .running, executionCount := some executionCount, outputs := [] }

/-- `markCompleted(cell, outputs)`. -/
def markCompleted (cell : Cell) (outputs : List CellOutput) : Cell :=
  { cell with status := .completed, outputs := outputs }

/-- `markError(cell, error)`: status `error` with a single synthesized
error output carrying the message. -/
def markError (cell : Cell) (error : String) : Cell :=
  { cell with status := .error,
              outputs := [{ type := .error, data := .str error, mimeType := none }] }

/-- Execution context shared across cells (`variables` and `metadata`
bags omitted; the runner never reads them). -/
structure ExecutionContext where
  executionCount : Nat
  startedAt : Nat
deriving DecidableEq

/-- ASCII whitespace recognized by `trim` (the model restricts JS's
unicode whitespace set to the characters claims exercise). -/
def isWsChar (c : Char) : Bool := c = ' ' || c = '\t' || c = '\n' || c = '\r'

/-- JS `source.trim()`. -/
def jsTrim (s : String) : String :=
  String.mk (((s.toList.dropWhile isWsChar).reverse.dropWhile isWsChar).reverse)

/-- A caller-supplied cell executor `async (source, context) => outputs`;
`Except.error msg` models a thrown exception with message `msg`.  (The
executor's own mutation of the context is not modelled; the claims only
concern the runner's handling of the executor's result.) -/
def CellExecutor : Type := String → ExecutionContext → Except String (List CellOutput)

/-- `executeCell(cell, executor, context)`: non-code cells and cells
with empty/whitespace-only source are skipped without invoking the
executor; otherwise the execution counter is incremented, the cell is
marked running, and the executor's result decides `completed`/`error`.
Returns the new cell together with the (incremented) context. -/
def executeCell (cell : Cell) (executor : CellExecutor) (ctx : ExecutionContext) :
    Cell × ExecutionContext :=
  if cell.type ≠ .code then ({ cell with status := .skipped }, ctx)
  else if (jsTrim cell.source).length = 0 then ({ cell with status := .skipped }, ctx)
  else
    let ctx2 : ExecutionContext := { ctx with executionCount := ctx.executionCount + 1 }
    let running := markRunning cell ctx2.executionCount
    match executor cell.source ctx2 with
    | .ok outputs => (markCompleted running outputs, ctx2)
    | .error msg => (markError running msg, ctx2)

/-- Pipeline step status enum `'pending' | 'running' | 'completed' | 'failed' | 'skipped'`. -/
inductive PStepStatus where
  | pending
  | running
  | completed
  | failed
  | skipped
deriving DecidableEq

/-- Pipeline result status enum; `.part` models the source's
`'partial'` value. -/
inductive PStatus where
  | completed
  | failed
  | part
deriving DecidableEq

/-- Pipeline step record `{id, name, status, startedAt?, completedAt?, error?}`.
Timestamps are `Option Nat` ticks of a monotone counter standing in for
`Date.now()`; `none` models an absent field. -/
structure PipelineStep where
  id : String
  name : String
  status : PStepStatus
  startedAt : Option Nat := none
  completedAt : Option Nat := none
  error : Option String := none
deriving DecidableEq

/-- Pipeline configuration (the `description`/`verbose` fields are
omitted: the runner never branches on them). -/
structure PipelineConfig where
  name : String
  steps : List String
  retryOnFailure : Bool
  maxRetries : Nat
  continueOnError : Bool

/-- Pipeline result record. -/
structure PipelineResultRec where
  pipelineName : String
  status : PStatus
  steps : List PipelineStep
  startedAt : Nat
  completedAt : Nat
  durationMs : Nat
  error : Option String := none

/-- `{result, output}` of `executePipeline`. -/
structure PipelineRunResult (T : Type) where
  result : PipelineResultRec
  output : T

/-- A caller-supplied step function `async (input, context) => output`.
The extra `Nat` argument is the 1-based attempt number, so that a
function that throws on some attempts and succeeds on others is
expressible; `Except.error msg` models a thrown exception.  (The
context record — pipeline name, step index, totals, metadata bag and
log sink — never influences the runner's control flow and is not
modelled as an argument.) -/
def StepFn (T : Type) : Type := Nat → T → Except String T

/-- The retry loop of `executePipeline`, entered with attempt number
`attempt` and `remaining ≥ 1` attempts left: first success wins,
earlier errors are swallowed, the last attempt's error is reported. -/
def runRetry {T : Type} (fn : StepFn T) (v : T) (attempt : Nat) : Nat → Except String T
  | 0 => .error ""
  | 1 => fn attempt v
  | n + 2 =>
    match fn attempt v with
    | .ok w => .ok w
    | .error _ => runRetry fn v (attempt + 1) (n + 1)

/-- The trailing "mark remaining steps as skipped" loop: skipped steps
carry no timestamps and no error. -/
def skippedTail (names : List String) (j : Nat) : List PipelineStep :=
  match names with
  | [] => []
  | n :: rest =>
    { id := "step-" ++ toString j, name := n, status := .skipped } :: skippedTail rest (j + 1)

/-- Threaded state of the execution loop: current value, pipeline
status, last error, and the `Date.now()` tick counter. -/
structure LoopState (T : Type) where
  value : T
  status : PStatus
  error : Option String := none
  clock : Nat

/-- Total attempts granted to one step. -/
def maxAttempts (cfg : PipelineConfig) : Nat :=
  if cfg.retryOnFailure then cfg.maxRetries + 1 else 1

/-- The `for` loop of `executePipeline` over the remaining step names,
`i` being the index of the next step.  An unregistered step records a
failed step with the fixed error message and sets the pipeline status
to `failed` (regardless of continue-on-error), halting unless
continue-on-error; a registered step runs the retry loop, and on
ultimate failure the status becomes `partial`/`failed` according to
continue-on-error, halting (and appending the skipped tail) unless
continue-on-error.  The current value is only updated on success. -/
def runLoop {T : Type} (cfg : PipelineConfig) (fns : String → Option (StepFn T)) :
    List String → Nat → LoopState T → List PipelineStep × LoopState T
  | [], _, st => ([], st)
  | name :: rest, i, st =>
    match fns name with
    | none =>
      let step : PipelineStep :=
        { id := "step-" ++ toString i, name := name, status := .failed
          error := some ("Step function not found: " ++ name)
          startedAt := some st.clock, completedAt := some (st.clock + 1) }
      let st2 : LoopState T :=
        { st with status := .failed, error := step.error, clock := st.clock + 2 }
      if cfg.continueOnError then
        let res := runLoop cfg fns rest (i + 1) st2
        (step :: res.1, res.2)
      else ([step], st2)
    | some fn =>
      match runRetry fn st.value 1 (maxAttempts cfg) with
      | .ok w =>
        let step : PipelineStep :=
          { id := "step-" ++ toString i, name := name, status := .completed
            startedAt := some st.clock, completedAt := some (st.clock + 1) }
        let st2 : LoopState T := { st with value := w, clock := st.clock + 2 }
        let res := runLoop cfg fns rest (i + 1) st2
        (step :: res.1, res.2)
      | .error msg =>
        let step : PipelineStep :=
          { id := "step-" ++ toString i, name := name, status := .failed
            error := some msg
            startedAt := some st.clock, completedAt := some (st.clock + 1) }
        let st2 : LoopState T :=
          { st with status := if cfg.continueOnError then .part else .failed
                    error := some msg, clock := st.clock + 2 }
        if cfg.continueOnError then
          let res := runLoop cfg fns rest (i + 1) st2
          (step :: res.1, res.2)
        else (step :: skippedTail rest (i + 1), st2)

/-- `executePipeline(pipeline, input)`: runs the loop from status
`completed` and wraps up the result record.  The step-function map is
modelled as `fns : String → Option (StepFn T)`. -/
def executePipeline {T : Type} (cfg : PipelineConfig) (fns : String → Option (StepFn T))
    (input : T) : PipelineRunResult T :=
  let res := runLoop cfg fns cfg.steps 0 { value := input, status := .completed, clock := 1 }
  { result :=
      { pipelineName := cfg.name
        status := res.2.status
        steps := res.1
        startedAt := 0
        completedAt := res.2.clock
        durationMs := res.2.clock
        error := res.2.error }
    output := res.2.value }

/-- Observable shape of a recorded step: name, status, presence of the
two timestamps, error message.  (The `id` and exact tick values are
determined by position and are not part of the claims.) -/
def stepView (s : PipelineStep) : String × PStepStatus × Bool × Bool × Option String :=
  (s.name, s.status, s.startedAt.isSome, s.completedAt.isSome, s.error)

/-- Value threaded through a prefix of steps when each of them
ultimately succeeds: `none` as soon as a step is unregistered or
ultimately fails. -/
def threadOk {T : Type} (cfg : PipelineConfig) (fns : String → Option (StepFn T)) :
    T → List String → Option T
  | v, [] => some v
  | v, name :: rest =>
    match fns name with
    | none => none
    | some fn =>
      match runRetry fn v 1 (maxAttempts cfg) with
      | .ok w => threadOk cfg fns w rest
      | .error _ => none

/-- Spec-side restatement of the continue-on-error threading: a step
that ultimately fails (or is unregistered) acts as the identity on the
running value, a successful step applies its transform. -/
def noopFold {T : Type} (cfg : PipelineConfig) (fns : String → Option (StepFn T))
    (v : T) : List String → T
  | [] => v
  | name :: rest =>
    match fns name with
    | none => noopFold cfg fns v rest
    | some fn =>
      match runRetry fn v 1 (maxAttempts cfg) with
      | .ok w => noopFold cfg fns w rest
      | .error _ => noopFold cfg fns v rest

/-! Concrete example values used by counterexamples and witnesses. -/

/-- Dataset `[{a:1},{a:null},{a:3}]` of the spec's Scenario 1. -/
def scenarioDataset : Dataset :=
  createDataset [[("a", Value.num 1)], [("a", Value.null)], [("a", Value.num 3)]] "dataset" 0

/-- Dataset `[{v:'x'}]` whose column `v` holds zero numeric values. -/
def strOnlyDataset : Dataset :=
  createDataset [[("v", Value.str "x")]] "dataset" 0

/-- Dataset `[{a:1},{a:null}]`. -/
def nullDataset : Dataset :=
  createDataset [[("a", Value.num 1)], [("a", Value.null)]] "d" 0

/-- Dataset `[{g:'a',x:2},{g:'a',x:4},{g:'b',x:'n/a'}]`. -/
def aggDataset : Dataset :=
  createDataset
    [[("g", Value.str "a"), ("x", Value.num 2)],
     [("g", Value.str "a"), ("x", Value.num 4)],
     [("g", Value.str "b"), ("x", Value.str "n/a")]] "d" 0

/-- Aggregations `{total: {column:'x', fn:'sum'}, cnt: {column:'x', fn:'count'}, mn: {column:'x', fn:'min'}}`. -/
def aggSpecsEx : List (String × AggSpec) :=
  [("total", { column := "x", fn := .sum }),
   ("cnt", { column := "x", fn := .count }),
   ("mn", { column := "x", fn := .min })]

/-- The group of `aggDataset` rows with `g = 'a'`. -/
def aggGroupEx : List Row :=
  [[("g", Value.str "a"), ("x", Value.num 2)],
   [("g", Value.str "a"), ("x", Value.num 4)]]

/-- Step functions of the spec's Scenarios 2/3: `ok (n => n+1)`,
`fail` (always throws `"boom"`), `after (n => n+10)`. -/
def scenarioFns : String → Option (StepFn ℤ)
  | "ok" => some (fun _ n => .ok (n + 1))
  | "fail" => some (fun _ _ => .error "boom")
  | "after" => some (fun _ n => .ok (n + 10))
  | _ => none

/-- Pipeline `[ok, fail, after]` with the given continue-on-error flag. -/
def scenarioCfg (cont : Bool) : PipelineConfig :=
  { name := "p", steps := ["ok", "fail", "after"], retryOnFailure := false,
    maxRetries := 3, continueOnError := cont }

/-- Pipeline `[missing, after]` (no function registered for `missing`)
with the given continue-on-error flag. -/
def missingCfg (cont : Bool) : PipelineConfig :=
  { name := "p", steps := ["missing", "after"], retryOnFailure := false,
    maxRetries := 3, continueOnError := cont }

/-- A markdown cell. -/
def cellMarkdown : Cell :=
  { id := "c1", type := .markdown, source := "# title", outputs := [], status := .idle }

/-- A code cell with non-blank source. -/
def cellCode : Cell :=
  { id := "c2", type := .code, source := "1 + 1", outputs := [], status := .idle }

/-- An executor that always throws `"boom"`. -/
def execBoom : CellExecutor := fun _ _ => .error "boom"

/-- A fresh execution context. -/
def ctx0 : ExecutionContext := { executionCount := 0, startedAt := 0 }

/-- Well-formedness of a dataset (the §3 invariant that the schema
reflects the actual row contents, in the weak form the idempotence
argument needs): every key of every row appears among the schema's
column names.  `createDataset` always establishes it. -/
def DatasetWF (d : Dataset) : Prop :=
  ∀ r ∈ d.rows, ∀ k ∈ rowKeys r, k ∈ d.metadata.columns.map (fun c => c.name)

instance (d : Dataset) : Decidable (DatasetWF d) := by
  unfold DatasetWF; infer_instance

/-- The status the last-failure-wins rule assigns from one failed step:
`failed` when continue-on-error is off; otherwise `failed` for an
unregistered step and `partial` for a step that threw. -/
def failKindStatus {T : Type} (cfg : PipelineConfig) (fns : String → Option (StepFn T))
    (s : PipelineStep) : PStatus :=
  if !cfg.continueOnError then .failed
  else if (fns s.name).isNone then .failed
  else .part

/-! Shared helper lemmas. -/

theorem rowGet_rowSet_self (r : Row) (k : String) (v : Value) :
    rowGet (rowSet r k v) k = some v := by
  induction r with
  | nil => simp [rowSet, rowGet]
  | cons kv rest ih =>
    by_cases h : kv.1 = k
    · simp [rowSet, rowGet, h]
    · simp [rowSet, rowGet, h, ih]

theorem rowGet_rowSet_ne (r : Row) (k k' : String) (v : Value) (h : k' ≠ k) :
    rowGet (rowSet r k v) k' = rowGet r k' := by
  induction r with
  | nil => simp [rowSet, rowGet, Ne.symm h]
  | cons kv rest ih =>
    by_cases hk : kv.1 = k
    · simp [rowSet, rowGet, hk, Ne.symm h]
    · simp [rowSet, rowGet, hk, ih]

theorem rowGet_foldl_rowSet_not_mem {β : Type} (l : List (String × β)) (f : String × β → Value)
    (r : Row) (k : String) (h : k ∉ l.map Prod.fst) :
    rowGet (l.foldl (fun acc a => rowSet acc a.1 (f a)) r) k = rowGet r k := by
  induction l generalizing r with
  | nil => simp
  | cons a rest ih =>
    simp only [List.map_cons, List.mem_cons] at h
    push_neg at h
    simp only [List.foldl_cons]
    rw [ih _ h.2, rowGet_rowSet_ne _ _ _ _ h.1]

theorem length_filterMap_eq_countP {α β : Type} (f : α → Option β) (l : List α) :
    (l.filterMap f).length = l.countP (fun a => (f a).isSome) := by
  induction l with
  | nil => simp
  | cons a rest ih =>
    cases hf : f a <;>
      simp [List.filterMap_cons, hf, List.countP_cons, ih]

theorem mem_insertUniq {α : Type} [DecidableEq α] (l : List α) (x y : α) :
    y ∈ insertUniq l x ↔ y ∈ l ∨ y = x := by
  by_cases h : x ∈ l
  · unfold insertUniq
    simp only [if_pos h]
    constructor
    · exact fun hy => Or.inl hy
    · rintro (hy | rfl) <;> [exact hy; exact h]
  · unfold insertUniq
    simp [if_neg h]

theorem mem_foldl_insertUniq {α : Type} [DecidableEq α] (l : List α) (acc : List α) (y : α) :
    y ∈ l.foldl insertUniq acc ↔ y ∈ acc ∨ y ∈ l := by
  induction l generalizing acc with
  | nil => simp
  | cons a rest ih =>
    simp only [List.foldl_cons, ih, mem_insertUniq, List.mem_cons]
    tauto

theorem mem_firstSeen {α : Type} [DecidableEq α] (l : List α) (y : α) :
    y ∈ firstSeen l ↔ y ∈ l := by
  unfold firstSeen
  simp [mem_foldl_insertUniq]

theorem getLast?_cons_eq {α : Type} (a : α) (xs : List α) :
    (a :: xs).getLast? = some ((xs.getLast?).getD a) := by
  cases xs with
  | nil => simp
  | cons b t =>
    rw [List.getLast?_cons_cons]
    have hne : (b :: t) ≠ [] := by simp
    obtain ⟨y, hy⟩ := Option.isSome_iff_exists.mp (List.getLast?_isSome.mpr hne)
    simp [hy]

theorem foldl_if_getLast {α β : Type} (p : α → Prop) [DecidablePred p] (g : α → β)
    (l : List α) (b : β) :
    l.foldl (fun acc s => if p s then g s else acc) b =
      (((l.filter (fun s => decide (p s))).getLast?).map g).getD b := by
  induction l generalizing b with
  | nil => simp
  | cons a rest ih =>
    by_cases h : p a
    · rw [List.foldl_cons, if_pos h, ih (g a), List.filter_cons, decide_eq_true h]
      simp only [if_pos]
      rw [getLast?_cons_eq]
      cases hl : (rest.filter (fun s => decide (p s))).getLast? <;> simp [hl]
    · rw [List.foldl_cons, if_neg h, ih b, List.filter_cons]
      simp [h]

theorem foldl_min_le (xs : List ℚ) (a : ℚ) :
    xs.foldl min a ≤ a ∧ ∀ x ∈ xs, xs.foldl min a ≤ x := by
  induction xs generalizing a with
  | nil => simp
  | cons y ys ih =>
    obtain ⟨h1, h2⟩ := ih (min a y)
    refine ⟨le_trans h1 (min_le_left _ _), ?_⟩
    intro x hx
    rcases List.mem_cons.mp hx with rfl | hx
    · exact le_trans h1 (min_le_right _ _)
    · exact h2 x hx

theorem foldl_min_mem (xs : List ℚ) (a : ℚ) :
    xs.foldl min a = a ∨ xs.foldl min a ∈ xs := by
  induction xs generalizing a with
  | nil => simp
  | cons y ys ih =>
    rcases ih (min a y) with h | h
    · rcases min_choice a y with hm | hm
      · left; simp only [List.foldl_cons]; rw [h, hm]
      · right; simp only [List.foldl_cons]; rw [h, hm]; exact List.mem_cons_self _ _
    · right; exact List.mem_cons_of_mem _ h

theorem foldl_max_ge (xs : List ℚ) (a : ℚ) :
    a ≤ xs.foldl max a ∧ ∀ x ∈ xs, x ≤ xs.foldl max a := by
  induction xs generalizing a with
  | nil => simp
  | cons y ys ih =>
    obtain ⟨h1, h2⟩ := ih (max a y)
    refine ⟨le_trans (le_max_left _ _) h1, ?_⟩
    intro x hx
    rcases List.mem_cons.mp hx with rfl | hx
    · exact le_trans (le_max_right _ _) h1
    · exact h2 x hx

theorem foldl_max_mem (xs : List ℚ) (a : ℚ) :
    xs.foldl max a = a ∨ xs.foldl max a ∈ xs := by
  induction xs generalizing a with
  | nil => simp
  | cons y ys ih =>
    rcases ih (max a y) with h | h
    · rcases max_choice a y with hm | hm
      · left; simp only [List.foldl_cons]; rw [h, hm]
      · right; simp only [List.foldl_cons]; rw [h, hm]; exact List.mem_cons_self _ _
    · right; exact List.mem_cons_of_mem _ h

theorem jsMin_spec (l : List ℚ) (h : l ≠ []) : jsMin l ∈ l ∧ ∀ x ∈ l, jsMin l ≤ x := by
  cases l with
  | nil => exact absurd rfl h
  | cons x xs =>
    obtain ⟨h1, h2⟩ := foldl_min_le xs x
    constructor
    · rcases foldl_min_mem xs x with he | he
      · rw [jsMin, he]; exact List.mem_cons_self _ _
      · exact List.mem_cons_of_mem _ he
    · intro y hy
      rcases List.mem_cons.mp hy with rfl | hy
      · exact h1
      · exact h2 y hy

theorem jsMax_spec (l : List ℚ) (h : l ≠ []) : jsMax l ∈ l ∧ ∀ x ∈ l, x ≤ jsMax l := by
  cases l with
  | nil => exact absurd rfl h
  | cons x xs =>
    obtain ⟨h1, h2⟩ := foldl_max_ge xs x
    constructor
    · rcases foldl_max_mem xs x with he | he
      · rw [jsMax, he]; exact List.mem_cons_self _ _
      · exact List.mem_cons_of_mem _ he
    · intro y hy
      rcases List.mem_cons.mp hy with rfl | hy
      · exact h1
      · exact h2 y hy

theorem skippedTail_view (names : List String) (j : Nat) :
    (skippedTail names j).map stepView =
      names.map (fun n => (n, PStepStatus.skipped, false, false, (none : Option String))) := by
  induction names generalizing j with
  | nil => simp [skippedTail]
  | cons n rest ih => simp [skippedTail, stepView, ih]

theorem inferSchema_name (rows : List Row) (name : String) :
    (inferSchema rows name).name = name := by
  unfold inferSchema
  by_cases h : rows = [] <;> simp [h]

theorem pairwise_flag_orderedInsert {α : Type} (r : α → α → Prop) [DecidableRel r]
    (f : α → Bool)
    (h1 : ∀ a b, f a = false → f b = true → r a b)
    (h2 : ∀ a b, f a = true → f b = false → ¬r a b)
    (x : α) (l : List α)
    (hl : l.Pairwise (fun a b => f a = true → f b = true)) :
    (List.orderedInsert r x l).Pairwise (fun a b => f a = true → f b = true) := by
  induction l with
  | nil => simp
  | cons y ys ih =>
    rw [List.pairwise_cons] at hl
    obtain ⟨hy, hys⟩ := hl
    by_cases hr : r x y
    · simp only [List.orderedInsert, if_pos hr]
      refine List.pairwise_cons.mpr ⟨?_, List.pairwise_cons.mpr ⟨hy, hys⟩⟩
      intro z hz hfx
      have hfy : f y = true := by
        cases hfy : f y
        · exact absurd hr (h2 x y hfx hfy)
        · rfl
      rcases List.mem_cons.mp hz with rfl | hz
      · exact hfy
      · exact hy z hz hfy
    · simp only [List.orderedInsert, if_neg hr]
      refine List.pairwise_cons.mpr ⟨?_, ih hys⟩
      intro z hz hfy
      rcases List.mem_cons.mp ((List.perm_orderedInsert r x ys).mem_iff.mp hz) with rfl | hz
      · cases hfx : f z
        · exact absurd (h1 z y hfx hfy) hr
        · rfl
      · exact hy z hz hfy

theorem pairwise_flag_insertionSort {α : Type} (r : α → α → Prop) [DecidableRel r]
    (f : α → Bool)
    (h1 : ∀ a b, f a = false → f b = true → r a b)
    (h2 : ∀ a b, f a = true → f b = false → ¬r a b) :
    ∀ l : List α, (l.insertionSort r).Pairwise (fun a b => f a = true → f b = true)
  | [] => by simp
  | a :: l => by
    rw [List.insertionSort]
    exact pairwise_flag_orderedInsert r f h1 h2 a _
      (pairwise_flag_insertionSort r f h1 h2 l)

theorem cmpRows_nonnull_null (col : String) (asc : Bool) (a b : Row)
    (ha : nullish (rowGet a col) = false) (hb : nullish (rowGet b col) = true) :
    cmpRows col asc a b = -1 := by
  have hne : rowGet a col ≠ rowGet b col := by
    intro he
    rw [he, hb] at ha
    exact absurd ha (by decide)
  simp [cmpRows, hne, ha, hb]

theorem cmpRows_null_nonnull (col : String) (asc : Bool) (a b : Row)
    (ha : nullish (rowGet a col) = true) (hb : nullish (rowGet b col) = false) :
    cmpRows col asc a b = 1 := by
  have hne : rowGet a col ≠ rowGet b col := by
    intro he
    rw [he, hb] at ha
    exact absurd ha (by decide)
  simp [cmpRows, hne, ha]

/-- Claim C7: for every dataset `d`, column `col` and direction flag
`asc`, `sortBy(d, col, asc)` has exactly `d.rows.length` rows, and
every row whose `col` value is null/undefined appears after every row
whose `col` value is non-null, regardless of `asc` (stated as: whenever
an earlier row of the sorted output is nullish at `col`, so is every
later row). -/
theorem sortBy_length_and_nulls_last (d : Dataset) (col : String) (asc : Bool) (fresh : Nat) :
    (sortBy d col asc fresh).rows.length = d.rows.length ∧
    (sortBy d col asc fresh).rows.Pairwise
      (fun a b => nullish (rowGet a col) = true → nullish (rowGet b col) = true) := by
  constructor
  · exact (List.perm_insertionSort _ d.rows).length_eq
  · refine pairwise_flag_insertionSort _ (fun row => nullish (rowGet row col)) ?_ ?_ d.rows
    · intro a b ha hb
      rw [cmpRows_nonnull_null col asc a b ha hb]
      decide
    · intro a b ha hb
      rw [cmpRows_null_nonnull col asc a b ha hb]
      decide

theorem mem_inferSchema_names (rows : List Row) (name c : String)
    (h : c ∈ (inferSchema rows name).columns.map (fun s => s.name)) :
    ∃ r ∈ rows, c ∈ rowKeys r := by
  unfold inferSchema at h
  by_cases hr : rows = []
  · simp [hr] at h
  · simp only [if_neg hr, List.map_map] at h
    obtain ⟨a, ha, hac⟩ := List.mem_map.mp h
    simp only [Function.comp] at hac
    rw [columnNames, mem_firstSeen] at ha
    obtain ⟨l, hl, hal⟩ := List.mem_flatten.mp ha
    obtain ⟨r, hrm, rfl⟩ := List.mem_map.mp hl
    exact ⟨r, hrm, hac ▸ hal⟩

/-- Claim C3 (amended): for every dataset `d` and Transform Library
call, provided the allocator hands the operation a tag distinct from
`d`'s, the result's rows array is reference-unequal to `d.rows` and its
schema is freshly re-inferred from its rows — except `normalize` on a
column holding zero numeric values, which returns the input dataset
itself (same rows array reference).  The input `d` itself is a pure
value in this embedding and is trivially unchanged by the call. -/
theorem transform_returns_fresh_rows (op : TransformOp) (d : Dataset) (fresh : Nat)
    (h : fresh ≠ d.rowsRef) :
    ((applyOp op d fresh).rowsRef ≠ d.rowsRef ∧
      (applyOp op d fresh).metadata =
        inferSchema (applyOp op d fresh).rows (applyOp op d fresh).metadata.name) ∨
    (∃ col, op = TransformOp.normalizeOp col ∧ getNumericColumn d col = [] ∧
      applyOp op d fresh = d) := by
  cases op with
  | normalizeOp col =>
    by_cases hv : getNumericColumn d col = []
    · exact Or.inr ⟨col, rfl, hv, by simp [applyOp, normalizeCol, hv]⟩
    · left
      constructor
      · simp only [applyOp, normalizeCol, if_neg hv]
        by_cases hr : jsMax (getNumericColumn d col) - jsMin (getNumericColumn d col) = 0 <;>
          simp [hr, createDataset, h]
      · simp only [applyOp, normalizeCol, if_neg hv]
        by_cases hr : jsMax (getNumericColumn d col) - jsMin (getNumericColumn d col) = 0 <;>
          simp [hr, createDataset, inferSchema_name]
  | filterRowsOp p =>
    exact Or.inl ⟨by simp [applyOp, filterRows, createDataset, h],
      by simp [applyOp, filterRows, createDataset, inferSchema_name]⟩
  | sortByOp col asc =>
    exact Or.inl ⟨by simp [applyOp, sortBy, createDataset, h],
      by simp [applyOp, sortBy, createDataset, inferSchema_name]⟩
  | addColumnOp name compute =>
    exact Or.inl ⟨by simp [applyOp, addColumn, createDataset, h],
      by simp [applyOp, addColumn, createDataset, inferSchema_name]⟩
  | renameColumnOp o n =>
    exact Or.inl ⟨by simp [applyOp, renameColumn, createDataset, h],
      by simp [applyOp, renameColumn, createDataset, inferSchema_name]⟩
  | dropNullsOp cols =>
    exact Or.inl ⟨by simp [applyOp, dropNulls, createDataset, h],
      by simp [applyOp, dropNulls, createDataset, inferSchema_name]⟩
  | aggregateOp gcol aggs =>
    exact Or.inl ⟨by simp [applyOp, aggregate, createDataset, h],
      by simp [applyOp, aggregate, createDataset, inferSchema_name]⟩
  | innerJoinOp right lk rk =>
    exact Or.inl ⟨by simp [applyOp, innerJoin, createDataset, h],
      by simp [applyOp, innerJoin, createDataset, inferSchema_name]⟩
  | pivotOp idx piv val =>
    exact Or.inl ⟨by simp [applyOp, pivot, createDataset, h],
      by simp [applyOp, pivot, createDataset, inferSchema_name]⟩
  | fillNullsOp col v =>
    exact Or.inl ⟨by simp [applyOp, fillNulls, createDataset, h],
      by simp [applyOp, fillNulls, createDataset, inferSchema_name]⟩
  | concatOp others =>
    exact Or.inl ⟨by simp [applyOp, concat, createDataset, h],
      by simp [applyOp, concat, createDataset, inferSchema_name]⟩

/-- Claim C3 counterexample: `normalize` on column `v` of `[{v:'x'}]`
(zero numeric values) returns the input dataset itself, so the result's
rows array is reference-EQUAL to the input's, falsifying the claim that
every Transform Library call returns a reference-unequal rows array. -/
theorem transform_fresh_rows_cex :
    applyOp (TransformOp.normalizeOp "v") strOnlyDataset 1 = strOnlyDataset ∧
    (applyOp (TransformOp.normalizeOp "v") strOnlyDataset 1).rowsRef = strOnlyDataset.rowsRef ∧
    (1 : Nat) ≠ strOnlyDataset.rowsRef := by
  decide

/-- Claim C3 witness: the amended theorem applied to `dropNulls` on a
concrete dataset with tag 1 ≠ 0. -/
theorem transform_returns_fresh_rows_witness :
    ((applyOp (TransformOp.dropNullsOp none) strOnlyDataset 1).rowsRef ≠ strOnlyDataset.rowsRef ∧
      (applyOp (TransformOp.dropNullsOp none) strOnlyDataset 1).metadata =
        inferSchema (applyOp (TransformOp.dropNullsOp none) strOnlyDataset 1).rows
          (applyOp (TransformOp.dropNullsOp none) strOnlyDataset 1).metadata.name) ∨
    (∃ col, TransformOp.dropNullsOp none = TransformOp.normalizeOp col ∧
      getNumericColumn strOnlyDataset col = [] ∧
      applyOp (TransformOp.dropNullsOp none) strOnlyDataset 1 = strOnlyDataset) :=
  transform_returns_fresh_rows (TransformOp.dropNullsOp none) strOnlyDataset 1 (by decide)

/-- Claim C8: `executeCell` skips (without invoking the executor — the
result is the same for every executor and equals the input cell with
status `skipped`) whenever the cell is not a code cell or its source
trims to empty; and for a code cell with non-blank source whose
executor throws, the result has status `error` and exactly one output
of type `error` carrying the exception message. -/
theorem executeCell_skip_and_error (cell : Cell) (exec : CellExecutor) (ctx : ExecutionContext) :
    ((cell.type ≠ .code ∨ (jsTrim cell.source).length = 0) →
      executeCell cell exec ctx = ({ cell with status := .skipped }, ctx)) ∧
    (∀ msg, cell.type = .code → (jsTrim cell.source).length ≠ 0 →
      exec cell.source { ctx with executionCount := ctx.executionCount + 1 } = .error msg →
      (executeCell cell exec ctx).1.status = .error ∧
      (executeCell cell exec ctx).1.outputs =
        [{ type := .error, data := .str msg, mimeType := none }]) := by
  constructor
  · rintro (h | h)
    · simp [executeCell, h]
    · by_cases ht : cell.type = CellType.code
      · simp [executeCell, ht, h]
      · simp [executeCell, ht]
  · intro msg ht hs hex
    simp [executeCell, ht, hs, hex, markRunning, markError]

/-- Claim C8 witness: the theorem applied to a markdown cell (skipped
with the throwing executor untouched) and to a code cell whose executor
throws `"boom"`. -/
theorem executeCell_skip_and_error_witness :
    executeCell cellMarkdown execBoom ctx0 = ({ cellMarkdown with status := .skipped }, ctx0) ∧
    ((executeCell cellCode execBoom ctx0).1.status = .error ∧
      (executeCell cellCode execBoom ctx0).1.outputs =
        [{ type := .error, data := .str "boom", mimeType := none }]) :=
  ⟨(executeCell_skip_and_error cellMarkdown execBoom ctx0).1 (Or.inl (by decide)),
   (executeCell_skip_and_error cellCode execBoom ctx0).2 "boom" (by decide) (by decide) rfl⟩

/-- Claim C10: over a column holding zero numeric values,
`describeColumn` reports `min = 0` and `max = 0` (the `0` fallback of
the source), while `aggregate`'s `min`/`max` switch (`aggValue`) yields
`null` over zero numeric values. -/
theorem describe_min_max_zero_on_empty (d : Dataset) (col : String)
    (h : getNumericColumn d col = []) :
    (describeColumn d col).min = 0 ∧ (describeColumn d col).max = 0 ∧
    (∀ n : Nat, aggValue .min [] n = .null ∧ aggValue .max [] n = .null) := by
  refine ⟨?_, ?_, fun n => ⟨rfl, rfl⟩⟩
  · simp [describeColumn, h]
  · simp [describeColumn, h]

/-- Claim C10 witness: the theorem applied to the dataset `[{v:'x'}]`
whose column `v` has no numeric values. -/
theorem describe_min_max_zero_on_empty_witness :
    (describeColumn strOnlyDataset "v").min = 0 ∧
    (describeColumn strOnlyDataset "v").max = 0 ∧
    (∀ n : Nat, aggValue .min [] n = .null ∧ aggValue .max [] n = .null) :=
  describe_min_max_zero_on_empty strOnlyDataset "v" (by decide)

/-- Claim C9: for a well-formed dataset (schema covering all row keys,
as `createDataset` guarantees), `dropNulls` with the default column set
is idempotent on the rows: every row surviving the first pass has all
of the first pass's schema columns non-nullish, and the re-inferred
schema of the result names only those columns, so the second pass keeps
every row. -/
theorem dropNulls_idempotent (d : Dataset) (f1 f2 : Nat) (hwf : DatasetWF d) :
    (dropNulls (dropNulls d none f1) none f2).rows = (dropNulls d none f1).rows := by
  simp only [dropNulls, createDataset, Option.getD_none]
  apply List.filter_eq_self.mpr
  intro r hr
  rw [List.all_eq_true]
  intro c hc
  obtain ⟨r2, hr2, hcr2⟩ := mem_inferSchema_names _ _ c hc
  have hr2d : r2 ∈ d.rows := List.mem_of_mem_filter hr2
  have hccs : c ∈ d.metadata.columns.map (fun s => s.name) := hwf r2 hr2d c hcr2
  have hpr : ((d.metadata.columns.map (fun c => c.name)).all
      (fun c2 => !nullish (rowGet r c2))) = true := (List.mem_filter.mp hr).2
  exact List.all_eq_true.mp hpr c hccs

/-- Claim C9 witness: the theorem applied to the dataset
`[{a:1},{a:null}]` (which is well-formed by construction). -/
theorem dropNulls_idempotent_witness :
    (dropNulls (dropNulls nullDataset none 1) none 2).rows = (dropNulls nullDataset none 1).rows :=
  dropNulls_idempotent nullDataset 1 2 (by decide)

theorem countP_partition3 {A : Type} (p1 p2 p3 : A → Bool)
    (h : ∀ a, (if p1 a then 1 else 0) + (if p2 a then 1 else 0) +
      (if p3 a then 1 else 0) = 1) (l : List A) :
    l.length = l.countP p1 + l.countP p2 + l.countP p3 := by
  induction l with
  | nil => simp
  | cons a rest ih =>
    rw [List.countP_cons, List.countP_cons, List.countP_cons, List.length_cons, ih]
    have ha := h a
    cases hp1 : p1 a <;> cases hp2 : p2 a <;> cases hp3 : p3 a <;>
      simp [hp1, hp2, hp3] at ha ⊢ <;> omega

theorem value_counts_partition (l : List (Option Value)) :
    l.length = l.countP (fun v => (valNum v).isSome) + l.countP (fun v => nullish v) +
      l.countP (fun v => !(valNum v).isSome && !nullish v) := by
  apply countP_partition3
  intro v
  rcases v with _ | v
  · simp [valNum, nullish]
  · cases v <;> simp [valNum, nullish]

/-- Claim C6: `describeColumn`'s `count` is the number of column values
that are numbers, `nullCount` counts only strictly null/undefined
values, and the two predicates with the non-numeric non-null leftovers
partition the column (so a non-numeric non-null value lands in
neither); and on `[{a:1},{a:null},{a:3}]` the stats are
`count=2, mean=2, min=1, max=3, nullCount=1`. -/
theorem describeColumn_count_nullCount (d : Dataset) (col : String) :
    (describeColumn d col).count = (getColumn d col).countP (fun v => (valNum v).isSome) ∧
    (describeColumn d col).nullCount = (getColumn d col).countP (fun v => nullish v) ∧
    (getColumn d col).length =
      (getColumn d col).countP (fun v => (valNum v).isSome) +
      (getColumn d col).countP (fun v => nullish v) +
      (getColumn d col).countP (fun v => !(valNum v).isSome && !nullish v) ∧
    (describeColumn scenarioDataset "a").count = 2 ∧
    (describeColumn scenarioDataset "a").mean = 2 ∧
    (describeColumn scenarioDataset "a").min = 1 ∧
    (describeColumn scenarioDataset "a").max = 3 ∧
    (describeColumn scenarioDataset "a").nullCount = 1 := by
  have h13 : getNumericColumn scenarioDataset "a" = [1, 3] := by decide
  refine ⟨?_, ?_, value_counts_partition _, by decide, ?_, ?_, ?_, by decide⟩
  · simp [describeColumn, getNumericColumn, getColumn, length_filterMap_eq_countP,
      Function.comp_def]
  · simp [describeColumn, getColumn, List.countP_eq_length_filter]
  · simp [describeColumn, h13, meanQ, sumQ]
    norm_num
  · norm_num [describeColumn, h13, jsMin]
  · norm_num [describeColumn, h13, jsMax]

theorem rowGet_aggRow (gcol : String) (aggs : List (String × AggSpec)) (k : Option Value)
    (g : List Row) (al : String) (spec : AggSpec)
    (hnd : (aggs.map Prod.fst).Nodup) (hmem : (al, spec) ∈ aggs) :
    rowGet (aggRow gcol aggs k g) al =
      some (aggValue spec.fn (numsOf g spec.column) g.length) := by
  unfold aggRow
  generalize (match k with | some v => [(gcol, v)] | none => ([] : Row)) = base
  induction aggs generalizing base with
  | nil => cases hmem
  | cons a rest ih =>
    rw [List.map_cons, List.nodup_cons] at hnd
    rcases List.mem_cons.mp hmem with heq | hmem2
    · rw [List.foldl_cons]
      have h1 : al ∉ rest.map Prod.fst := by
        rw [← heq] at hnd
        exact hnd.1
      rw [rowGet_foldl_rowSet_not_mem rest
        (fun a => aggValue a.2.fn (numsOf g a.2.column) g.length) _ al h1]
      rw [← heq]
      exact rowGet_rowSet_self base al _
    · rw [List.foldl_cons]
      exact ih hnd.2 hmem2 _

/-- Claim C5: `aggregate` groups rows by the raw value of the group
column (each group being exactly the rows matching its key, in order);
each alias is computed over only the numeric values of its source
column within the group; `sum`/`avg` over zero numeric values yield
`0`; `min`/`max` over zero numeric values yield `null` (otherwise the
actual minimum/maximum of the numeric values); and `count` is the row
count of the group regardless of nulls or non-numeric values.  The
aliases are assumed pairwise distinct, as the keys of the source's
`aggregations` object necessarily are. -/
theorem aggregate_semantics (d : Dataset) (gcol : String) (aggs : List (String × AggSpec))
    (fresh : Nat) (hnd : (aggs.map Prod.fst).Nodup) :
    (aggregate d gcol aggs fresh).rows =
      (groupPairs d.rows gcol).map (fun p => aggRow gcol aggs p.1 p.2) ∧
    (∀ k g, (k, g) ∈ groupPairs d.rows gcol →
      g = d.rows.filter (fun r => decide (rowGet r gcol = k))) ∧
    (∀ k g, (k, g) ∈ groupPairs d.rows gcol →
      ∀ al spec, (al, spec) ∈ aggs →
        ∃ v, rowGet (aggRow gcol aggs k g) al = some v ∧
          (spec.fn = .sum → v = .num (sumQ (numsOf g spec.column))) ∧
          (spec.fn = .avg → v = .num (if numsOf g spec.column = [] then 0
            else sumQ (numsOf g spec.column) / (numsOf g spec.column).length)) ∧
          (spec.fn = .count → v = .num g.length) ∧
          (spec.fn = .min → (numsOf g spec.column = [] → v = .null) ∧
            (numsOf g spec.column ≠ [] → ∃ q, v = .num q ∧ q ∈ numsOf g spec.column ∧
              ∀ x ∈ numsOf g spec.column, q ≤ x)) ∧
          (spec.fn = .max → (numsOf g spec.column = [] → v = .null) ∧
            (numsOf g spec.column ≠ [] → ∃ q, v = .num q ∧ q ∈ numsOf g spec.column ∧
              ∀ x ∈ numsOf g spec.column, x ≤ q))) := by
  refine ⟨rfl, ?_, ?_⟩
  · intro k g hkg
    unfold groupPairs at hkg
    obtain ⟨k2, hk2, heq⟩ := List.mem_map.mp hkg
    obtain ⟨hkk, hgg⟩ := Prod.mk.injEq .. ▸ heq
    exact hkk ▸ hgg.symm
  · intro k g hkg al spec hmem
    refine ⟨aggValue spec.fn (numsOf g spec.column) g.length,
      rowGet_aggRow gcol aggs k g al spec hnd hmem, ?_, ?_, ?_, ?_, ?_⟩
    · intro hfn
      rw [hfn]
      rfl
    · intro hfn
      rw [hfn]
      by_cases hv : numsOf g spec.column = [] <;>
        simp [aggValue, sumQ, hv, List.length_eq_zero, List.isEmpty_iff]
    · intro hfn
      rw [hfn]
      rfl
    · intro hfn
      rw [hfn]
      constructor
      · intro hv
        simp [aggValue, hv]
      · intro hv
        refine ⟨jsMin (numsOf g spec.column), by simp [aggValue, hv], (jsMin_spec _ hv).1,
          (jsMin_spec _ hv).2⟩
    · intro hfn
      rw [hfn]
      constructor
      · intro hv
        simp [aggValue, hv]
      · intro hv
        refine ⟨jsMax (numsOf g spec.column), by simp [aggValue, hv], (jsMax_spec _ hv).1,
          (jsMax_spec _ hv).2⟩

/-- Claim C5 witness: the theorem applied to the concrete dataset
`[{g:'a',x:2},{g:'a',x:4},{g:'b',x:'n/a'}]`, its group `g='a'`, and the
aliases `total` (sum), `cnt` (count) and `mn` (min). -/
theorem aggregate_semantics_witness :
    (∃ v, rowGet (aggRow "g" aggSpecsEx (some (Value.str "a")) aggGroupEx) "total" = some v ∧
      v = Value.num (sumQ (numsOf aggGroupEx "x"))) ∧
    (∃ v, rowGet (aggRow "g" aggSpecsEx (some (Value.str "a")) aggGroupEx) "cnt" = some v ∧
      v = Value.num aggGroupEx.length) ∧
    (∃ v, rowGet (aggRow "g" aggSpecsEx (some (Value.str "a")) aggGroupEx) "mn" = some v ∧
      ∃ q, v = Value.num q ∧ q ∈ numsOf aggGroupEx "x" ∧
        ∀ x ∈ numsOf aggGroupEx "x", q ≤ x) := by
  have hmain := (aggregate_semantics aggDataset "g" aggSpecsEx 1 (by decide)).2.2
    (some (Value.str "a")) aggGroupEx (by decide)
  refine ⟨?_, ?_, ?_⟩
  · obtain ⟨v, hv, himp, -, -, -, -⟩ :=
      hmain "total" { column := "x", fn := .sum } (by decide)
    exact ⟨v, hv, himp rfl⟩
  · obtain ⟨v, hv, -, -, himp, -, -⟩ :=
      hmain "cnt" { column := "x", fn := .count } (by decide)
    exact ⟨v, hv, himp rfl⟩
  · obtain ⟨v, hv, -, -, -, himp, -⟩ :=
      hmain "mn" { column := "x", fn := .min } (by decide)
    exact ⟨v, hv, (himp rfl).2 (by decide)⟩

theorem foldl_skippedTail {β : Type} (g : β → PipelineStep → β)
    (hg : ∀ acc s, s.status = PStepStatus.skipped → g acc s = acc)
    (names : List String) (j : Nat) (acc : β) :
    (skippedTail names j).foldl g acc = acc := by
  induction names generalizing j acc with
  | nil => simp [skippedTail]
  | cons n rest ih =>
    rw [skippedTail, List.foldl_cons, hg _ _ rfl]
    exact ih (j + 1) acc

theorem runLoop_status {T : Type} (cfg : PipelineConfig) (fns : String → Option (StepFn T)) :
    ∀ (names : List String) (i : Nat) (st : LoopState T),
      ((runLoop cfg fns names i st).2).status =
        (runLoop cfg fns names i st).1.foldl
          (fun acc s => if s.status = PStepStatus.failed then failKindStatus cfg fns s else acc)
          st.status := by
  intro names
  induction names with
  | nil => intro i st; simp [runLoop]
  | cons name rest ih =>
    intro i st
    cases hfn : fns name with
    | none =>
      cases hc : cfg.continueOnError with
      | true =>
        simp only [runLoop, hfn, hc, if_true, List.foldl_cons]
        rw [ih]
        simp [failKindStatus, hfn, hc]
      | false =>
        simp only [runLoop, hfn, hc]
        simp [failKindStatus, hfn, hc]
    | some fn =>
      cases hrr : runRetry fn st.value 1 (maxAttempts cfg) with
      | ok w =>
        simp only [runLoop, hfn, hrr, List.foldl_cons]
        rw [ih]
        simp
      | error msg =>
        cases hc : cfg.continueOnError with
        | true =>
          simp only [runLoop, hfn, hrr, hc, if_true, List.foldl_cons]
          rw [ih]
          simp [failKindStatus, hfn, hc]
        | false =>
          simp only [runLoop, hfn, hrr, hc]
          simp [failKindStatus, hfn, hc]
          rw [foldl_skippedTail]
          intro acc s hs
          simp [hs]

theorem runLoop_no_failed {T : Type} (cfg : PipelineConfig) (fns : String → Option (StepFn T)) :
    ∀ (names : List String) (i : Nat) (st : LoopState T),
      (∀ s ∈ (runLoop cfg fns names i st).1, s.status ≠ PStepStatus.failed) →
      ∀ s ∈ (runLoop cfg fns names i st).1, s.status = PStepStatus.completed := by
  intro names
  induction names with
  | nil => intro i st; simp [runLoop]
  | cons name rest ih =>
    intro i st h
    cases hfn : fns name with
    | none =>
      cases hc : cfg.continueOnError with
      | true =>
        rw [runLoop] at h
        simp only [hfn, hc, if_true] at h
        exact absurd rfl (h _ (List.mem_cons_self _ _))
      | false =>
        rw [runLoop] at h
        simp only [hfn, hc] at h
        exact absurd rfl (h _ (List.mem_cons_self _ _))
    | some fn =>
      cases hrr : runRetry fn st.value 1 (maxAttempts cfg) with
      | ok w =>
        rw [runLoop] at h ⊢
        simp only [hfn, hrr] at h ⊢
        intro s hs
        rcases List.mem_cons.mp hs with rfl | hs2
        · rfl
        · exact ih _ _ (fun s2 hs2 => h s2 (List.mem_cons_of_mem _ hs2)) s hs2
      | error msg =>
        cases hc : cfg.continueOnError with
        | true =>
          rw [runLoop] at h
          simp only [hfn, hrr, hc, if_true] at h
          exact absurd rfl (h _ (List.mem_cons_self _ _))
        | false =>
          rw [runLoop] at h
          simp only [hfn, hrr, hc] at h
          exact absurd rfl (h _ (List.mem_cons_self _ _))

/-- Claim C1 (amended): the run's status is fully determined by the
failed steps of the result: `completed` iff no step failed
(equivalently, iff every recorded step completed — second conjunct);
otherwise, with continue-on-error false the status is `failed`, and
with continue-on-error true it is decided by the LAST failed step —
`failed` if that step's function was not registered, `partial` if its
function threw on all attempts.  (The original claim's "`failed` iff a
step failed and continue-on-error was false" and "`partial` iff a step
failed with continue-on-error true" both fail on the code: an
unregistered step sets the status to `failed` even under
continue-on-error.) -/
theorem pipeline_status_characterization {T : Type} (cfg : PipelineConfig)
    (fns : String → Option (StepFn T)) (input : T) :
    ((executePipeline cfg fns input).result.status =
      ((((executePipeline cfg fns input).result.steps.filter
          (fun s => decide (s.status = PStepStatus.failed))).getLast?).map
        (failKindStatus cfg fns)).getD PStatus.completed) ∧
    ((executePipeline cfg fns input).result.steps.countP
        (fun s => decide (s.status = PStepStatus.failed)) = 0 ↔
      (executePipeline cfg fns input).result.steps.countP
        (fun s => !decide (s.status = PStepStatus.completed)) = 0) := by
  simp only [executePipeline]
  constructor
  · rw [runLoop_status, foldl_if_getLast]
  · rw [List.countP_eq_zero, List.countP_eq_zero]
    constructor
    · intro h s hs
      have h2 : ∀ s2 ∈ (runLoop cfg fns cfg.steps 0
          { value := input, status := PStatus.completed, clock := 1 }).1,
          s2.status ≠ PStepStatus.failed := by
        intro s2 hs2
        have := h s2 hs2
        simpa using this
      have := runLoop_no_failed cfg fns cfg.steps 0 _ h2 s hs
      simp [this]
    · intro h s hs
      have := h s hs
      simp at this ⊢
      simp [this]

/-- Claim C1 counterexample: pipeline `[missing, after]` with
continue-on-error TRUE.  The unregistered step `missing` fails,
execution proceeds past it (`after` completes), yet the result status
is `failed`, not `partial` — contradicting both the claimed
"`failed` iff continue-on-error was false" and the claimed
"`partial` iff a step failed while continue-on-error was true and
execution proceeded past it". -/
theorem pipeline_status_cex :
    (executePipeline (missingCfg true) scenarioFns (0 : ℤ)).result.status = PStatus.failed ∧
    (missingCfg true).continueOnError = true ∧
    ((executePipeline (missingCfg true) scenarioFns (0 : ℤ)).result.steps.map stepView) =
      [("missing", PStepStatus.failed, true, true,
        some "Step function not found: missing"),
       ("after", PStepStatus.completed, true, true, none)] ∧
    (executePipeline (missingCfg true) scenarioFns (0 : ℤ)).result.status ≠ PStatus.part := by
  decide

theorem runLoop_halt {T : Type} (cfg : PipelineConfig) (fns : String → Option (StepFn T))
    (hc : cfg.continueOnError = false) :
    ∀ (names1 : List String) (name : String) (names2 : List String) (i : Nat)
      (st : LoopState T) (v1 : T),
      threadOk cfg fns st.value names1 = some v1 →
      (((fns name).isNone →
        (runLoop cfg fns (names1 ++ name :: names2) i st).2.value = v1 ∧
        (runLoop cfg fns (names1 ++ name :: names2) i st).1.map stepView =
          names1.map (fun n => (n, PStepStatus.completed, true, true, (none : Option String))) ++
          [(name, PStepStatus.failed, true, true,
            some ("Step function not found: " ++ name))]) ∧
      (∀ fn msg, fns name = some fn →
        runRetry fn v1 1 (maxAttempts cfg) = .error msg →
        (runLoop cfg fns (names1 ++ name :: names2) i st).2.value = v1 ∧
        (runLoop cfg fns (names1 ++ name :: names2) i st).1.map stepView =
          names1.map (fun n => (n, PStepStatus.completed, true, true, (none : Option String))) ++
          [(name, PStepStatus.failed, true, true, some msg)] ++
          names2.map (fun n => (n, PStepStatus.skipped, false, false, (none : Option String))))) := by
  intro names1
  induction names1 with
  | nil =>
    intro name names2 i st v1 hpre
    rw [threadOk] at hpre
    injection hpre with hv1
    subst hv1
    constructor
    · intro hn
      cases hfn : fns name with
      | some fn =>
        rw [hfn] at hn
        simp at hn
      | none =>
        simp only [List.nil_append, runLoop, hfn, hc]
        exact ⟨rfl, by simp [stepView]⟩
    · intro fn msg hfn hrr
      simp only [List.nil_append, runLoop, hfn, hrr, hc]
      exact ⟨rfl, by simp [stepView, skippedTail_view]⟩
  | cons n ns1 ih =>
    intro name names2 i st v1 hpre
    rw [threadOk] at hpre
    cases hfn0 : fns n with
    | none =>
      simp only [hfn0] at hpre
      cases hpre
    | some fn0 =>
      cases hrr0 : runRetry fn0 st.value 1 (maxAttempts cfg) with
      | error m =>
        simp only [hfn0, hrr0] at hpre
        cases hpre
      | ok w =>
        simp only [hfn0, hrr0] at hpre
        obtain ⟨ha, hb⟩ := ih name names2 (i + 1)
          { st with value := w, clock := st.clock + 2 } v1 hpre
        constructor
        · intro hn
          obtain ⟨hval, hsteps⟩ := ha hn
          simp only [List.cons_append, runLoop, hfn0, hrr0]
          refine ⟨hval, ?_⟩
          rw [List.map_cons]
          simp only [List.append_eq]
          rw [hsteps]
          simp [stepView]
        · intro fn msg hfn hrr
          obtain ⟨hval, hsteps⟩ := hb fn msg hfn hrr
          simp only [List.cons_append, runLoop, hfn0, hrr0]
          refine ⟨hval, ?_⟩
          rw [List.map_cons]
          simp only [List.append_eq]
          rw [hsteps]
          simp [stepView]

/-- Claim C2 (amended): with continue-on-error false, when a step
ultimately fails, execution halts immediately with the run's output
equal to the value produced by the last successfully completed step
(the failing step's input).  When the failing step's function WAS
registered and threw on every attempt, every remaining unexecuted step
is appended as `skipped` with no timestamps; when the failing step was
UNREGISTERED, the loop breaks before the skip-marking code, so the
remaining steps are not appended at all.  (The original claim's
"every remaining unexecuted step is appended as skipped" fails on the
code in the unregistered case.) -/
theorem pipeline_halt_on_failure {T : Type} (cfg : PipelineConfig)
    (fns : String → Option (StepFn T)) (input : T)
    (names1 : List String) (name : String) (names2 : List String)
    (hsteps : cfg.steps = names1 ++ name :: names2)
    (hc : cfg.continueOnError = false)
    (v1 : T) (hpre : threadOk cfg fns input names1 = some v1) :
    ((fns name).isNone →
      (executePipeline cfg fns input).output = v1 ∧
      (executePipeline cfg fns input).result.steps.map stepView =
        names1.map (fun n => (n, PStepStatus.completed, true, true, (none : Option String))) ++
        [(name, PStepStatus.failed, true, true,
          some ("Step function not found: " ++ name))]) ∧
    (∀ fn msg, fns name = some fn →
      runRetry fn v1 1 (maxAttempts cfg) = .error msg →
      (executePipeline cfg fns input).output = v1 ∧
      (executePipeline cfg fns input).result.steps.map stepView =
        names1.map (fun n => (n, PStepStatus.completed, true, true, (none : Option String))) ++
        [(name, PStepStatus.failed, true, true, some msg)] ++
        names2.map (fun n => (n, PStepStatus.skipped, false, false, (none : Option String)))) := by
  simp only [executePipeline, hsteps]
  exact runLoop_halt cfg fns hc names1 name names2 0
    { value := input, status := PStatus.completed, clock := 1 } v1 hpre

/-- Claim C2 counterexample: pipeline `[missing, after]` with
continue-on-error false.  The first step's function is unregistered, so
it fails and the run halts — but the remaining step `after` is NOT
appended to the result as `skipped`: the result records only one step,
although the claim requires two (the failed one plus a skipped one). -/
theorem pipeline_halt_cex :
    (missingCfg false).continueOnError = false ∧
    (missingCfg false).steps.length = 2 ∧
    (executePipeline (missingCfg false) scenarioFns (0 : ℤ)).result.steps.length = 1 ∧
    ((executePipeline (missingCfg false) scenarioFns (0 : ℤ)).result.steps.map stepView) =
      [("missing", PStepStatus.failed, true, true,
        some "Step function not found: missing")] := by
  decide

/-- Claim C2 witness: the amended theorem applied to the spec's
Scenario 2 (`[ok, fail, unreachable-after]`, continue-on-error false,
input 0): output is `1` (the value after `ok`), the failing step is
recorded `failed` and the remaining step is appended `skipped` without
timestamps. -/
theorem pipeline_halt_on_failure_witness :
    (executePipeline (scenarioCfg false) scenarioFns (0 : ℤ)).output = 1 ∧
    (executePipeline (scenarioCfg false) scenarioFns (0 : ℤ)).result.steps.map stepView =
      [("ok", PStepStatus.completed, true, true, none),
       ("fail", PStepStatus.failed, true, true, some "boom"),
       ("after", PStepStatus.skipped, false, false, none)] := by
  have h := (pipeline_halt_on_failure (scenarioCfg false) scenarioFns (0 : ℤ)
    ["ok"] "fail" ["after"] rfl rfl 1 (by decide)).2
    (fun _ _ => Except.error "boom") "boom" rfl rfl
  exact ⟨h.1, by rw [h.2]; rfl⟩

theorem runLoop_value_cont {T : Type} (cfg : PipelineConfig)
    (fns : String → Option (StepFn T)) (hc : cfg.continueOnError = true) :
    ∀ (names : List String) (i : Nat) (st : LoopState T),
      ((runLoop cfg fns names i st).2).value = noopFold cfg fns st.value names := by
  intro names
  induction names with
  | nil => intro i st; simp [runLoop, noopFold]
  | cons name rest ih =>
    intro i st
    cases hfn : fns name with
    | none =>
      simp only [runLoop, hfn, hc, if_true, noopFold]
      exact ih (i + 1) _
    | some fn =>
      cases hrr : runRetry fn st.value 1 (maxAttempts cfg) with
      | ok w =>
        simp only [runLoop, hfn, hrr, noopFold]
        exact ih (i + 1) _
      | error msg =>
        simp only [runLoop, hfn, hrr, hc, if_true, noopFold]
        exact ih (i + 1) _

/-- Claim C4: with continue-on-error true, the run's output equals the
fold that applies each successful step's transform to the running value
and treats every ultimately-failing step (thrown on all attempts, or
unregistered) as the identity — i.e. the runner proceeds to the next
step passing the failed step's input value unchanged, and the final
output reflects only the successful steps' transforms. -/
theorem pipeline_continue_on_error_noop {T : Type} (cfg : PipelineConfig)
    (fns : String → Option (StepFn T)) (input : T)
    (hc : cfg.continueOnError = true) :
    (executePipeline cfg fns input).output = noopFold cfg fns input cfg.steps := by
  simp only [executePipeline]
  exact runLoop_value_cont cfg fns hc cfg.steps 0 _

/-- Claim C4 witness: the theorem applied to the spec's Scenario 3
(`[ok, fail, after]` with continue-on-error true and input 0); the
output is `11` — `fail` acted as a no-op on the running value `1` and
`after` added 10. -/
theorem pipeline_continue_on_error_noop_witness :
    (executePipeline (scenarioCfg true) scenarioFns (0 : ℤ)).output =
      noopFold (scenarioCfg true) scenarioFns 0 (scenarioCfg true).steps ∧
    (executePipeline (scenarioCfg true) scenarioFns (0 : ℤ)).output = 11 :=
  ⟨pipeline_continue_on_error_noop (scenarioCfg true) scenarioFns 0 rfl, by decide⟩
